import Mathlib

/-!
Verification of the Market-Simulation repository core: shared order/trade data
types (`src/market_simulation/types.py`), the price-time-priority order book
(spec §4.1; the module `order_book.py` is absent from the sources, so the book
is modelled from the specification), the agent ledger
(`src/market_simulation/agents/base.py`), and the simulation orchestrator
(`src/market_simulation/simulation.py`, `config.py`).

Prices and cash are embedded as rationals, quantities / ids / times as
integers.  External pseudo-random generators (Python `random.Random`, NumPy
`default_rng`) are embedded as deterministic streams indexed by seed and draw
counter, supplied through an explicit `RngModel` parameter.
-/

/-! ## Core data types (from `types.py`) -/

/-- Executable order, from `types.py` `Order`.  `side` is the runtime string
("BUY" or "SELL" once validated), `price` is `none` exactly for market
orders once validated. -/
structure Order where
  id : ℤ
  time : ℤ
  agent_id : ℤ
  side : String
  price : Option ℚ
  quantity : ℤ
  is_market : Bool
deriving DecidableEq, Repr

/-- Order request emitted by an agent, from `types.py` `OrderRequest`. -/
structure OrderRequest where
  side : String
  quantity : ℤ
  price : Option ℚ
  is_market : Bool
deriving DecidableEq, Repr

/-- Trade produced by matching, from `types.py` `Trade`. -/
structure Trade where
  time : ℤ
  price : ℚ
  quantity : ℤ
  buy_agent : ℤ
  sell_agent : ℤ
deriving DecidableEq, Repr

/-- Validation of `Order.__post_init__` (`types.py` lines 41-53): the checks
are performed in source order and the first failure is reported.  A Python
`ValueError` is embedded as `Except.error`. -/
def Order.validate (id time agent_id : ℤ) (side : String) (price : Option ℚ)
    (quantity : ℤ) (is_mkt : Bool) : Except String Order :=
  if ¬ (side = "BUY" ∨ side = "SELL") then .error "Invalid side"
  else if quantity ≤ 0 then .error "Quantity must be positive"
  else if is_mkt then
    match price with
    | some _ => .error "Market orders must not specify price"
    | none => .ok ⟨id, time, agent_id, side, none, quantity, true⟩
  else
    match price with
    | none => .error "Limit orders must specify price"
    | some p =>
        if p ≤ 0 then .error "Price must be positive"
        else .ok ⟨id, time, agent_id, side, some p, quantity, false⟩

/-- Validation of `OrderRequest.__post_init__` (`types.py` lines 77-89). -/
def OrderRequest.validate (side : String) (quantity : ℤ) (price : Option ℚ)
    (is_mkt : Bool) : Except String OrderRequest :=
  if ¬ (side = "BUY" ∨ side = "SELL") then .error "Invalid side"
  else if quantity ≤ 0 then .error "Quantity must be positive"
  else if is_mkt then
    match price with
    | some _ => .error "Market order request must not include a price"
    | none => .ok ⟨side, quantity, none, true⟩
  else
    match price with
    | none => .error "Limit order request must include a price"
    | some p =>
        if p ≤ 0 then .error "Price must be positive"
        else .ok ⟨side, quantity, some p, false⟩

/-! ## Order book

`order_book.py` is not among the available sources (only its tests and
callers are), so the book is modelled from the specification §4.1. -/

/-- Modelled from the spec: book state (§3 "Book state", §4.1) — two
collections of resting limit orders, bids ordered best (highest) price first
and asks best (lowest) price first, ties in arrival order, plus the
run-scoped trade log (`book.trades`). -/
structure OrderBook where
  bids : List Order
  asks : List Order
  trades : List Trade
deriving DecidableEq, Repr

/-- The empty book a run starts from (`OrderBook()` in `run_simulation`). -/
def OrderBook.empty : OrderBook := ⟨[], [], []⟩

/-- Price of a resting limit order; resting orders always carry a price, the
`getD` default is never reached on validated input. -/
def limPrice (o : Order) : ℚ := o.price.getD 0

/-- Modelled from the spec: whether incoming order `o` crosses resting order
`r` on the opposite side — a market order always crosses, a limit BUY crosses
when its price ≥ the resting ask price, a limit SELL when its price ≤ the
resting bid price (§4.1 `process_order`). -/
def crosses (o r : Order) : Bool :=
  if o.side = "BUY" then o.is_market || decide (limPrice r ≤ limPrice o)
  else o.is_market || decide (limPrice o ≤ limPrice r)

/-- Trade generated by pairing incoming `o` with resting `r` for quantity
`tq`: it executes at the resting order's price (§4.1). -/
def mkTrade (o r : Order) (tq : ℤ) : Trade :=
  if o.side = "BUY" then ⟨o.time, limPrice r, tq, o.agent_id, r.agent_id⟩
  else ⟨o.time, limPrice r, tq, r.agent_id, o.agent_id⟩

/-- Modelled from the spec: the matching walk of §4.1 — while the incoming
order has unfilled quantity and crosses the best (earliest-listed) opposing
order, trade at the resting price, removing fully filled resting orders and
reducing a partially filled one in place.  Returns the trades in execution
order, the remaining opposing side, and the unfilled quantity. -/
def matchLoop (o : Order) (qty : ℤ) : List Order → List Trade × List Order × ℤ
  | [] => ([], [], qty)
  | r :: rs =>
    if qty ≤ 0 then ([], r :: rs, qty)
    else if crosses o r then
      if r.quantity ≤ qty then
        let res := matchLoop o (qty - r.quantity) rs
        (mkTrade o r r.quantity :: res.1, res.2)
      else ([mkTrade o r qty], { r with quantity := r.quantity - qty } :: rs, 0)
    else ([], r :: rs, qty)

/-- Modelled from the spec: insert a leftover bid after all resting bids of
better or equal price (price priority, FIFO within a price level, §4.1). -/
def insertBid (o : Order) : List Order → List Order
  | [] => [o]
  | r :: rs => if limPrice r < limPrice o then o :: r :: rs else r :: insertBid o rs

/-- Modelled from the spec: insert a leftover ask after all resting asks of
better or equal price (§4.1). -/
def insertAsk (o : Order) : List Order → List Order
  | [] => [o]
  | r :: rs => if limPrice o < limPrice r then o :: r :: rs else r :: insertAsk o rs

/-- Modelled from the spec: `process_order` (§4.1).  Performs the matching
walk against the opposing side; a limit order with unfilled quantity is then
inserted as a resting order on its own side, a market order never rests.
Trades are appended to the book's run-scoped log and returned. -/
def OrderBook.processOrder (bk : OrderBook) (o : Order) : List Trade × OrderBook :=
  if o.side = "BUY" then
    let res := matchLoop o o.quantity bk.asks
    let bids1 :=
      if o.is_market || decide (res.2.2 ≤ 0) then bk.bids
      else insertBid { o with quantity := res.2.2 } bk.bids
    (res.1, ⟨bids1, res.2.1, bk.trades ++ res.1⟩)
  else
    let res := matchLoop o o.quantity bk.bids
    let asks1 :=
      if o.is_market || decide (res.2.2 ≤ 0) then bk.asks
      else insertAsk { o with quantity := res.2.2 } bk.asks
    (res.1, ⟨res.2.1, asks1, bk.trades ++ res.1⟩)

/-- Modelled from the spec: `cancel_agent_orders` (§4.1) — remove every
resting order of the given agent from both sides; the trade log is
untouched; a no-op when the agent has nothing resting. -/
def OrderBook.cancelAgentOrders (bk : OrderBook) (aid : ℤ) : OrderBook :=
  ⟨bk.bids.filter (fun r => decide (r.agent_id ≠ aid)),
   bk.asks.filter (fun r => decide (r.agent_id ≠ aid)),
   bk.trades⟩

/-- Modelled from the spec: `mid_price(reference)` (§4.1) — the average of
best bid and best ask when both sides are populated; with the fallback rule
(left open by §9 and fixed here) that a missing side is replaced by the
reference value, and an empty book returns the reference value itself. -/
def OrderBook.midPrice (bk : OrderBook) (ref : ℚ) : ℚ :=
  match bk.bids.head?, bk.asks.head? with
  | some b, some a => (limPrice b + limPrice a) / 2
  | some b, none => (limPrice b + ref) / 2
  | none, some a => (ref + limPrice a) / 2
  | none, none => ref

/-- A book operation of the mutation surface: order submission or per-agent
cancellation. -/
inductive BookOp where
  | process (o : Order)
  | cancel (aid : ℤ)
deriving Repr

/-- Apply one book operation. -/
def applyOp (bk : OrderBook) : BookOp → OrderBook
  | .process o => (bk.processOrder o).2
  | .cancel aid => bk.cancelAgentOrders aid

/-- Apply a sequence of book operations from left to right. -/
def applyOps (bk : OrderBook) (ops : List BookOp) : OrderBook :=
  ops.foldl applyOp bk

/-! ## Book invariants -/

/-- Bids are ordered best-first: prices non-increasing along the list. -/
def bidsOrdered (l : List Order) : Prop :=
  l.Pairwise (fun x y => limPrice y ≤ limPrice x)

/-- Asks are ordered best-first: prices non-decreasing along the list. -/
def asksOrdered (l : List Order) : Prop :=
  l.Pairwise (fun x y => limPrice x ≤ limPrice y)

/-- The never-crossed book invariant of §3: every resting bid price is
strictly below every resting ask price, together with the price ordering of
both sides. -/
def BookInv (bk : OrderBook) : Prop :=
  bidsOrdered bk.bids ∧ asksOrdered bk.asks ∧
    ∀ b ∈ bk.bids, ∀ a ∈ bk.asks, limPrice b < limPrice a

/-! ## Configuration (from `config.py`) -/

/-- Configuration for a single illegal agent, from `config.py` `InsiderSpec`. -/
structure InsiderSpec where
  strategy : String
  start_time : Option ℤ := none
  trade_size : Option ℤ := none
  group_id : Option ℤ := none
deriving DecidableEq, Repr

/-- Configuration for a single run, from `config.py` `SimulationConfig`.
Float fields are embedded as rationals (`0.1 = 1/10`, `0.05 = 1/20`). -/
structure SimulationConfig where
  run_id : ℤ
  T : ℕ := 1000
  has_event : Bool := true
  event_time : Option ℤ := none
  jump_size : ℚ := 1/10
  jump_direction : ℤ := 1
  volatility : ℚ := 1/20
  n_noise_traders : ℕ := 20
  n_market_makers : ℕ := 1
  n_prop_traders : ℕ := 0
  insider_specs : List InsiderSpec := []
  seed : Option ℤ := none
deriving DecidableEq, Repr

/-! ## Random number generators

The Python `random.Random(seed)` and NumPy `default_rng(seed)` generators are
external library code; they are embedded as deterministic streams read off an
explicit `RngModel` — each generator is a (seed, draw counter) pair and every
draw consumes one counter position, which is exactly the reproducibility
contract the spec's §4.2 "RNG provisioning" relies on. -/

/-- State of a Python `random.Random` stream: its seed and draw counter. -/
structure PyRng where
  seed : ℤ
  idx : ℕ
deriving DecidableEq, Repr

/-- State of a NumPy `default_rng` stream: its seed and draw counter. -/
structure NpRng where
  seed : ℤ
  idx : ℕ
deriving DecidableEq, Repr

/-- Modelled from the spec: the external PRNG implementations — arbitrary
deterministic functions of (seed, draw index, draw parameters) standing in
for `random.Random.randint` / `.uniform` and `numpy` `Generator.normal`. -/
structure RngModel where
  pyInt : ℤ → ℕ → ℤ → ℤ → ℤ
  pyRat : ℤ → ℕ → ℚ → ℚ → ℚ
  npNormal : ℤ → ℕ → ℚ → ℚ

/-- `rng.randint(a, b)`: one draw from the Python stream. -/
def pyRandint (m : RngModel) (r : PyRng) (a b : ℤ) : ℤ × PyRng :=
  (m.pyInt r.seed r.idx a b, ⟨r.seed, r.idx + 1⟩)

/-- `rng.uniform(a, b)`: one draw from the Python stream. -/
def pyUniform (m : RngModel) (r : PyRng) (a b : ℚ) : ℚ × PyRng :=
  (m.pyRat r.seed r.idx a b, ⟨r.seed, r.idx + 1⟩)

/-- `rng.choice(l)`: one draw from the Python stream, reduced modulo the list
length so that a nonempty list always yields one of its elements. -/
def pyChoice {α : Type} (m : RngModel) (r : PyRng) (l : List α) (d : α) : α × PyRng :=
  (l.getD ((m.pyInt r.seed r.idx 0 ((l.length : ℤ) - 1)).toNat % l.length) d,
   ⟨r.seed, r.idx + 1⟩)

/-- `_spawn_agent_rng` (`simulation.py` lines 52-54): draw one sub-seed from
the parent stream and seed a fresh Python and NumPy generator pair from it. -/
def spawnAgentRng (m : RngModel) (r : PyRng) : PyRng × NpRng × PyRng :=
  let d := pyRandint m r 0 (2 ^ 31 - 1)
  (⟨d.1, 0⟩, ⟨d.1, 0⟩, d.2)

/-! ## Agents (from `agents/base.py` and `simulation.py` `_build_agents`) -/

/-- Agent state, from `agents/base.py` `Agent`: ledger (cash, position),
trade history, labels — plus the constructor parameters of the concrete
strategy (spread, probabilities, sizes, horizons) kept as opaque data, the
agent's private generator pair, and the private policy state of the
strategies the spec excludes from the core (§1, §6). -/
structure Agent where
  id : ℤ
  type : String
  cash : ℚ := 0
  position : ℤ := 0
  trade_history : List (ℚ × ℤ × String) := []
  label_is_illegal : Bool := false
  label_illegal_type : Option String := none
  group_id : Option ℤ := none
  mode : Option String := none
  ratParams : List ℚ := []
  intParams : List ℤ := []
  rng : PyRng
  nprng : NpRng
  pstate : List ℚ := []
deriving DecidableEq, Repr

/-- `Agent.on_trade` (`agents/base.py` lines 59-71): a BUY fill adds the
quantity to the position and removes price×quantity from cash; any other
side mirrors it; the fill is appended to the trade history. -/
def Agent.onTrade (a : Agent) (price : ℚ) (quantity : ℤ) (side : String) : Agent :=
  if side = "BUY" then
    { a with position := a.position + quantity,
             cash := a.cash - price * quantity,
             trade_history := a.trade_history ++ [(price, quantity, side)] }
  else
    { a with position := a.position - quantity,
             cash := a.cash + price * quantity,
             trade_history := a.trade_history ++ [(price, quantity, side)] }

/-- `PropTrader.__init__` (`agents/prop.py` lines 15-30): constructing a prop
trader with an unrecognized trading mode raises a `ValueError`. -/
def PropTrader.init (agent_id : ℤ) (mode : String) (p_trade : ℚ) (max_qty : ℤ)
    (rng : PyRng) (nprng : NpRng) : Except String Agent :=
  if ¬ (mode = "momentum" ∨ mode = "mean_reversion") then
    .error "mode must be momentum or mean_reversion"
  else
    .ok
      { id := agent_id, type := "PROP", mode := some mode,
        ratParams := [p_trade], intParams := [max_qty],
        rng := rng, nprng := nprng }

/-- Accumulator of `_build_agents`: agents built so far, the master Python
stream, and `next_agent_id`. -/
structure BuildState where
  agents : List Agent
  rng : PyRng
  nextId : ℤ
deriving Repr

/-- Market-maker block of `_build_agents` (`simulation.py` lines 61-76). -/
def buildMMs (m : RngModel) : ℕ → BuildState → BuildState
  | 0, st => st
  | n + 1, st =>
    let s1 := spawnAgentRng m st.rng
    let u := pyUniform m s1.2.2 (3/2000) (3/1000)
    let sz := pyRandint m u.2 10 30
    let mi := pyRandint m sz.2 150 300
    let ag : Agent :=
      { id := st.nextId, type := "MM",
        ratParams := [u.1], intParams := [sz.1, mi.1], rng := s1.1, nprng := s1.2.1 }
    buildMMs m n ⟨st.agents ++ [ag], mi.2, st.nextId + 1⟩

/-- Prop-trader block of `_build_agents` (`simulation.py` lines 78-93); the
mode is drawn from the two recognized labels and the construction is
validated by `PropTrader.init`. -/
def buildProps (m : RngModel) : ℕ → BuildState → Except String BuildState
  | 0, st => .ok st
  | n + 1, st =>
    let s1 := spawnAgentRng m st.rng
    let md := pyChoice m s1.2.2 ["momentum", "mean_reversion"] "momentum"
    let pt := pyUniform m md.2 (1/5) (2/5)
    let mq := pyRandint m pt.2 5 20
    match PropTrader.init st.nextId md.1 pt.1 mq.1 s1.1 s1.2.1 with
    | .error e => .error e
    | .ok ag => buildProps m n ⟨st.agents ++ [ag], mq.2, st.nextId + 1⟩

/-- Noise-trader block of `_build_agents` (`simulation.py` lines 95-112). -/
def buildNoise (m : RngModel) : ℕ → BuildState → BuildState
  | 0, st => st
  | n + 1, st =>
    let s1 := spawnAgentRng m st.rng
    let pt := pyUniform m s1.2.2 (1/10) (2/5)
    let pm := pyUniform m pt.2 (1/5) (4/5)
    let mq := pyRandint m pm.2 5 20
    let db := pyUniform m mq.2 (-(1/10)) (1/10)
    let ag : Agent :=
      { id := st.nextId, type := "NOISE",
        ratParams := [pt.1, pm.1, db.1], intParams := [mq.1],
        rng := s1.1, nprng := s1.2.1 }
    buildNoise m n ⟨st.agents ++ [ag], db.2, st.nextId + 1⟩

/-- One step of the insider block of `_build_agents` (`simulation.py` lines
114-200): event-keyed strategies are skipped entirely when the scheduled
event is absent or direction-less, an unrecognized strategy label is skipped
silently (`continue`), and otherwise the agent's parameters are drawn in the
source's order. -/
def buildInsider (m : RngModel) (cfg : SimulationConfig) (st : BuildState)
    (spec : InsiderSpec) : BuildState :=
  if spec.strategy = "event" ∨ spec.strategy = "ring" ∨ spec.strategy = "slow" ∨
      spec.strategy = "stealth" then
    match cfg.event_time with
    | none => st
    | some et =>
      if cfg.has_event = false ∨ cfg.jump_direction = 0 then st
      else
        let s1 := spawnAgentRng m st.rng
        if spec.strategy = "event" ∨ spec.strategy = "ring" then
          let stt := pyRandint m s1.2.2 40 100
          let tsz := match spec.trade_size with
            | some v => (v, stt.2)
            | none => pyRandint m stt.2 6 12
          let uw := pyRandint m tsz.2 60 120
          let ag : Agent :=
            { id := st.nextId, type := "INSIDER",
              label_is_illegal := true, label_illegal_type := some "event_insider",
              group_id := spec.group_id,
              intParams := [et, cfg.jump_direction, et - stt.1, tsz.1, uw.1],
              rng := s1.1, nprng := s1.2.1 }
          ⟨st.agents ++ [ag], uw.2, st.nextId + 1⟩
        else if spec.strategy = "slow" then
          let stt := pyRandint m s1.2.2 150 350
          let tsz := match spec.trade_size with
            | some v => (v, stt.2)
            | none => pyRandint m stt.2 3 7
          let pp := pyUniform m tsz.2 (1/5) (2/5)
          let uw := pyRandint m pp.2 100 160
          let ag : Agent :=
            { id := st.nextId, type := "INSIDER",
              label_is_illegal := true, label_illegal_type := some "slow_insider",
              ratParams := [pp.1],
              intParams := [et, cfg.jump_direction, et - stt.1, tsz.1, uw.1],
              rng := s1.1, nprng := s1.2.1 }
          ⟨st.agents ++ [ag], uw.2, st.nextId + 1⟩
        else
          let stt := pyRandint m s1.2.2 80 160
          let tsz := match spec.trade_size with
            | some v => (v, stt.2)
            | none => pyRandint m stt.2 4 10
          let pp := pyUniform m tsz.2 (3/10) (1/2)
          let dc := pyUniform m pp.2 (1/10) (1/4)
          let uw := pyRandint m dc.2 60 120
          let ag : Agent :=
            { id := st.nextId, type := "INSIDER",
              label_is_illegal := true, label_illegal_type := some "stealth_insider",
              ratParams := [pp.1, dc.1],
              intParams := [et, cfg.jump_direction, et - stt.1, tsz.1, uw.1],
              rng := s1.1, nprng := s1.2.1 }
          ⟨st.agents ++ [ag], uw.2, st.nextId + 1⟩
  else if spec.strategy = "pump" then
    let s1 := spawnAgentRng m st.rng
    let stt := match spec.start_time with
      | some v => (v, s1.2.2)
      | none => pyRandint m s1.2.2 ((cfg.T : ℤ) / 5) (3 * (cfg.T : ℤ) / 5)
    let dir := pyChoice m stt.2 [(1 : ℤ), -1] 1
    let ph := pyRandint m dir.2 40 100
    let uw := pyRandint m ph.2 40 120
    let tsz := match spec.trade_size with
      | some v => (v, uw.2)
      | none => pyRandint m uw.2 8 15
    let ag : Agent :=
      { id := st.nextId, type := "INSIDER",
        label_is_illegal := true, label_illegal_type := some "pump_and_dump",
        group_id := spec.group_id,
        intParams := [stt.1, dir.1, ph.1, uw.1, tsz.1],
        rng := s1.1, nprng := s1.2.1 }
    ⟨st.agents ++ [ag], tsz.2, st.nextId + 1⟩
  else st

/-- `_build_agents` (`simulation.py` lines 57-202): market makers, then prop
traders, then noise traders, then the insider specs, in construction order,
drawing sub-seeds and parameters from the master Python stream. -/
def buildAgents (m : RngModel) (cfg : SimulationConfig) (r0 : PyRng) :
    Except String BuildState :=
  let st1 := buildMMs m cfg.n_market_makers ⟨[], r0, 1⟩
  match buildProps m cfg.n_prop_traders st1 with
  | .error e => .error e
  | .ok st2 =>
    let st3 := buildNoise m cfg.n_noise_traders st2
    .ok (cfg.insider_specs.foldl (buildInsider m cfg) st3)

/-! ## Simulation orchestrator (from `simulation.py` `run_simulation`) -/

/-- Whether a scheduled event is enabled for the run: the guard of the jump
branch of `run_simulation` (`simulation.py` lines 255-260) apart from the
per-tick test `t == event_time`. -/
def eventEnabled (cfg : SimulationConfig) : Prop :=
  cfg.has_event = true ∧ cfg.event_time ≠ none ∧ cfg.jump_direction ≠ 0

/-- The fundamental-value update of one tick (`simulation.py` lines 255-263):
on the scheduled event tick the value receives the multiplicative jump
`v * (1 + jump_direction * |jump_size|)` and the Gaussian stream is not
consumed; on every other tick it receives one Gaussian increment
`normal(0, volatility)` and the stream advances by one draw. -/
def fundUpdate (m : RngModel) (cfg : SimulationConfig) (t : ℕ) (v : ℚ)
    (g : NpRng) : ℚ × NpRng :=
  if cfg.has_event = true ∧ cfg.event_time = some (t : ℤ) ∧ cfg.jump_direction ≠ 0 then
    (v * (1 + (cfg.jump_direction : ℚ) * |cfg.jump_size|), g)
  else
    (v + m.npNormal g.seed g.idx cfg.volatility, ⟨g.seed, g.idx + 1⟩)

/-- Raw order-request data emitted by an agent's policy before validation. -/
structure RawRequest where
  side : String
  quantity : ℤ
  price : Option ℚ
  is_market : Bool
deriving DecidableEq, Repr

/-- The agent step contract at the spec's collaborator boundary (§6): given
the agent's state, the tick, a view of the book, the fundamental value and
the mid price, a policy returns whether the agent first cancels its own
resting orders (as the market maker does), the order requests it emits, and
its updated private state.  The concrete stochastic policies are excluded
from the core (§1), so the orchestrator is parametric in this function. -/
def Policy : Type :=
  Agent → ℕ → OrderBook → ℚ → ℚ → Bool × List RawRequest × Agent

/-- State threaded through the agent loop of one tick: book, agents,
and the run-wide order-id counter. -/
structure AgState where
  book : OrderBook
  agents : List Agent
  oid : ℤ
deriving Repr

/-- `_orders_from_requests` (`simulation.py` lines 205-225) combined with the
validation an agent's `OrderRequest` construction performs: every request is
validated and translated into an `Order` carrying the next run-wide id and
the current tick; the first validation failure aborts. -/
def translateRequests (t : ℕ) (aid : ℤ) (reqs : List RawRequest) (oid0 : ℤ) :
    Except String (List Order × ℤ) :=
  reqs.foldlM (fun acc rq => do
      let req ← OrderRequest.validate rq.side rq.quantity rq.price rq.is_market
      let ord ← Order.validate acc.2 (t : ℤ) aid req.side req.price req.quantity
        req.is_market
      pure (acc.1 ++ [ord], acc.2 + 1)) ([], oid0)

/-- Ledger reconciliation of one trade (`simulation.py` lines 279-283): the
buying agent receives a BUY fill and the selling agent a SELL fill. -/
def applyTrade (ags : List Agent) (tr : Trade) : List Agent :=
  (ags.map (fun a => if a.id = tr.buy_agent then a.onTrade tr.price tr.quantity "BUY" else a)).map
    (fun a => if a.id = tr.sell_agent then a.onTrade tr.price tr.quantity "SELL" else a)

/-- One agent's turn inside a tick (`simulation.py` lines 269-283): call the
step contract, translate the requests into validated orders, submit each
order to the book in emission order, and apply every resulting trade to both
counterparties immediately. -/
def agentStep (pol : Policy) (t : ℕ) (v mid : ℚ) (s : AgState) (i : ℕ) :
    Except String AgState :=
  match s.agents[i]? with
  | none => .ok s
  | some a =>
    let pr := pol a t s.book v mid
    let book1 := if pr.1 then s.book.cancelAgentOrders a.id else s.book
    let agents1 := s.agents.set i pr.2.2
    match translateRequests t a.id pr.2.1 s.oid with
    | .error e => .error e
    | .ok ords =>
      .ok (ords.1.foldl (fun s2 ord =>
        let res := s2.book.processOrder ord
        ⟨res.2, res.1.foldl applyTrade s2.agents, s2.oid⟩) ⟨book1, agents1, ords.2⟩)

/-- The agent loop of one tick, over the fixed construction order. -/
def agentPhase (pol : Policy) (t : ℕ) (v mid : ℚ) (n : ℕ) (s : AgState) :
    Except String AgState :=
  (List.range n).foldlM (agentStep pol t v mid) s

/-- State threaded through the tick loop of `run_simulation`. -/
structure SimState where
  book : OrderBook
  agents : List Agent
  nprng : NpRng
  v : ℚ
  oid : ℤ
  fvals : List ℚ
  mids : List ℚ
deriving Repr

/-- One tick of `run_simulation` (`simulation.py` lines 254-286): advance the
fundamental value and record it, compute the tick's reference mid price, run
every agent in construction order, then record the post-matching mid
price. -/
def simTick (m : RngModel) (pol : Policy) (cfg : SimulationConfig)
    (st : SimState) (t : ℕ) : Except String SimState :=
  let vg := fundUpdate m cfg t st.v st.nprng
  let midBefore := st.book.midPrice vg.1
  match agentPhase pol t vg.1 midBefore st.agents.length ⟨st.book, st.agents, st.oid⟩ with
  | .error e => .error e
  | .ok ag =>
    .ok ⟨ag.book, ag.agents, vg.2, vg.1, ag.oid,
         st.fvals ++ [vg.1], st.mids ++ [ag.book.midPrice vg.1]⟩

/-- Outputs of a run, from `simulation.py` `SimulationResult`. -/
structure SimulationResult where
  fundamental_values : List ℚ
  mid_prices : List ℚ
  trades : List Trade
  agents : List Agent
  book : OrderBook
deriving Repr

/-- `_make_rng`'s seed (`simulation.py` lines 47-49): the configured seed, or
the run id as the deterministic fallback when no seed is given. -/
def seedValue (cfg : SimulationConfig) : ℤ := cfg.seed.getD cfg.run_id

/-- `run_simulation` (`simulation.py` lines 228-305): seed the master
streams from the configuration, build the agents, start from an empty book
and fundamental value 100.0, run `T` ticks, and return the recorded series,
the trade log, the final book and the final agent ledgers. -/
def runSimulation (m : RngModel) (pol : Policy) (cfg : SimulationConfig) :
    Except String SimulationResult :=
  match buildAgents m cfg ⟨seedValue cfg, 0⟩ with
  | .error e => .error e
  | .ok bs =>
    match (List.range cfg.T).foldlM (simTick m pol cfg)
        ⟨OrderBook.empty, bs.agents, ⟨seedValue cfg, 0⟩, 100, 1, [], []⟩ with
    | .error e => .error e
    | .ok stF => .ok ⟨stF.fvals, stF.mids, stF.book.trades, stF.agents, stF.book⟩

/-- A policy that never trades; used to instantiate theorems at concrete
inputs. -/
def nullPolicy : Policy := fun a _ _ _ _ => (false, [], a)

/-- A concrete instantiation of the external PRNG model; used to instantiate
theorems at concrete inputs. -/
def zeroRng : RngModel :=
  ⟨fun _ _ a _ => a, fun _ _ a _ => a, fun _ _ _ => 0⟩

/-! ## Derived definitions used by the statements -/

/-- The side of the book an incoming order matches against. -/
def oppSide (bk : OrderBook) (o : Order) : List Order :=
  if o.side = "BUY" then bk.asks else bk.bids

/-- The resting (maker) counterparty recorded in a trade produced by
incoming order `o`. -/
def Trade.makerAgent (o : Order) (tr : Trade) : ℤ :=
  if o.side = "BUY" then tr.sell_agent else tr.buy_agent

/-- Total quantity of a list of trades. -/
def tradesQty (l : List Trade) : ℤ := (l.map Trade.quantity).sum

/-- Total resting quantity of a list of orders. -/
def restQty (l : List Order) : ℤ := (l.map Order.quantity).sum

/-- `l2` is `l` with some leading orders removed and, possibly, the first
remaining order's quantity reduced — the only way a matching walk can change
the opposing side. -/
def reducedSuffix (l l2 : List Order) : Prop :=
  (∃ n, l2 = l.drop n) ∨
    (∃ n r rs q, l.drop n = r :: rs ∧ l2 = { r with quantity := q } :: rs)

/-! ## Theorems -/

/-- C3: for every trade applied to an agent's ledger via `on_trade`, a BUY
fill increases the position by exactly the quantity and decreases cash by
exactly price×quantity, a SELL fill decreases the position by exactly the
quantity and increases cash by exactly price×quantity, and no other ledger
change occurs (every field other than cash, position and the appended trade
history is untouched, for any side). -/
theorem on_trade_ledger (a : Agent) (p : ℚ) (q : ℤ) :
    (a.onTrade p q "BUY").position = a.position + q ∧
    (a.onTrade p q "BUY").cash = a.cash - p * q ∧
    (a.onTrade p q "SELL").position = a.position - q ∧
    (a.onTrade p q "SELL").cash = a.cash + p * q ∧
    ∀ side, (a.onTrade p q side).id = a.id ∧
      (a.onTrade p q side).type = a.type ∧
      (a.onTrade p q side).label_is_illegal = a.label_is_illegal ∧
      (a.onTrade p q side).label_illegal_type = a.label_illegal_type ∧
      (a.onTrade p q side).group_id = a.group_id ∧
      (a.onTrade p q side).mode = a.mode ∧
      (a.onTrade p q side).ratParams = a.ratParams ∧
      (a.onTrade p q side).intParams = a.intParams ∧
      (a.onTrade p q side).rng = a.rng ∧
      (a.onTrade p q side).nprng = a.nprng ∧
      (a.onTrade p q side).pstate = a.pstate ∧
      (a.onTrade p q side).trade_history = a.trade_history ++ [(p, q, side)] := by
  refine ⟨by simp [Agent.onTrade], by simp [Agent.onTrade], by simp [Agent.onTrade],
    by simp [Agent.onTrade], ?_⟩
  intro side
  by_cases h : side = "BUY" <;> simp [Agent.onTrade, h]

/-- A well-formed order input: recognized side, positive quantity, no price
on a market order, a positive price on a limit order. -/
def WellFormedInput (side : String) (price : Option ℚ) (quantity : ℤ)
    (is_mkt : Bool) : Prop :=
  (side = "BUY" ∨ side = "SELL") ∧ 0 < quantity ∧
    (is_mkt = true → price = none) ∧
    (is_mkt = false → ∃ p, price = some p ∧ 0 < p)

/-- C5: constructing an `Order` or an `OrderRequest` raises a validation
error exactly when the input is malformed (bad side, non-positive quantity,
price on a market order, missing or non-positive price on a limit order);
equivalently every successfully constructed `Order`/`OrderRequest` has
positive quantity, price absent iff it is a market order, and a positive
price when present. -/
theorem validation_iff (id time agent_id : ℤ) (side : String)
    (price : Option ℚ) (quantity : ℤ) (is_mkt : Bool) :
    ((∃ o, Order.validate id time agent_id side price quantity is_mkt = .ok o) ↔
      WellFormedInput side price quantity is_mkt) ∧
    ((∃ r, OrderRequest.validate side quantity price is_mkt = .ok r) ↔
      WellFormedInput side price quantity is_mkt) ∧
    (∀ o, Order.validate id time agent_id side price quantity is_mkt = .ok o →
      0 < o.quantity ∧ (o.price = none ↔ o.is_market = true) ∧
        ∀ p, o.price = some p → 0 < p) ∧
    (∀ r, OrderRequest.validate side quantity price is_mkt = .ok r →
      0 < r.quantity ∧ (r.price = none ↔ r.is_market = true) ∧
        ∀ p, r.price = some p → 0 < p) := by
  refine ⟨?_, ?_, ?_, ?_⟩
  · unfold Order.validate WellFormedInput
    cases price <;> cases is_mkt <;> split_ifs <;> simp_all <;>
      (try constructor) <;> (try split_ifs) <;> simp_all
  · unfold OrderRequest.validate WellFormedInput
    cases price <;> cases is_mkt <;> split_ifs <;> simp_all <;>
      (try constructor) <;> (try split_ifs) <;> simp_all
  · intro o ho
    cases price <;> cases is_mkt <;> simp only [Order.validate] at ho <;>
      split_ifs at ho <;>
      first
        | exact (Except.noConfusion ho)
        | (injection ho with h
           subst h
           refine ⟨by simp; omega, by simp, ?_⟩
           intro p hp
           simp at hp
           (try subst hp)
           (try linarith))
  · intro r hr
    cases price <;> cases is_mkt <;> simp only [OrderRequest.validate] at hr <;>
      split_ifs at hr <;>
      first
        | exact (Except.noConfusion hr)
        | (injection hr with h
           subst h
           refine ⟨by simp; omega, by simp, ?_⟩
           intro p hp
           simp at hp
           (try subst hp)
           (try linarith))

/-- Witness for `validation_iff`: a concrete valid limit order is accepted
and satisfies the constructed-order properties, at explicit inputs. -/
theorem validation_iff_witness :
    (∃ o, Order.validate 1 0 10 "SELL" (some 101) 5 false = .ok o) ∧
    ∀ o, Order.validate 1 0 10 "SELL" (some 101) 5 false = .ok o →
      0 < o.quantity ∧ (o.price = none ↔ o.is_market = true) ∧
        ∀ p, o.price = some p → 0 < p :=
  ⟨((validation_iff 1 0 10 "SELL" (some 101) 5 false).1).mpr
      ⟨Or.inr rfl, by decide, by simp, fun _ => ⟨101, rfl, by decide⟩⟩,
   fun o ho => (validation_iff 1 0 10 "SELL" (some 101) 5 false).2.2.1 o ho⟩

/-- A quantity-only update keeps the price of a resting order. -/
theorem limPrice_set_quantity (r : Order) (q : ℤ) :
    limPrice { r with quantity := q } = limPrice r := rfl

/-- Fields of a generated trade: it carries the resting order's price, the
requested pairing quantity, the incoming order's submission time, and the
resting order's agent as the maker counterparty. -/
theorem mkTrade_fields (o r : Order) (tq : ℤ) :
    (mkTrade o r tq).price = limPrice r ∧ (mkTrade o r tq).quantity = tq ∧
      (mkTrade o r tq).time = o.time ∧
      Trade.makerAgent o (mkTrade o r tq) = r.agent_id := by
  unfold mkTrade Trade.makerAgent
  by_cases h : o.side = "BUY" <;> simp [h]

/-- Members of `insertBid o l` are `o` or members of `l`. -/
theorem mem_insertBid {x o : Order} : ∀ {l}, x ∈ insertBid o l → x = o ∨ x ∈ l
  | [], h => by simpa [insertBid] using h
  | r :: rs, h => by
    unfold insertBid at h
    split at h
    · simpa using h
    · rcases List.mem_cons.mp h with h1 | h1
      · exact Or.inr (h1 ▸ List.mem_cons_self r rs)
      · rcases mem_insertBid h1 with h2 | h2
        · exact Or.inl h2
        · exact Or.inr (List.mem_cons_of_mem r h2)

/-- Members of `insertAsk o l` are `o` or members of `l`. -/
theorem mem_insertAsk {x o : Order} : ∀ {l}, x ∈ insertAsk o l → x = o ∨ x ∈ l
  | [], h => by simpa [insertAsk] using h
  | r :: rs, h => by
    unfold insertAsk at h
    split at h
    · simpa using h
    · rcases List.mem_cons.mp h with h1 | h1
      · exact Or.inr (by simp [h1])
      · rcases mem_insertAsk h1 with h2 | h2
        · exact Or.inl h2
        · exact Or.inr (List.mem_cons_of_mem r h2)

/-- Inserting a bid keeps the bid side ordered best-price-first. -/
theorem insertBid_sorted (o : Order) :
    ∀ {l}, bidsOrdered l → bidsOrdered (insertBid o l)
  | [], _ => by simp [insertBid, bidsOrdered]
  | r :: rs, h => by
    rcases List.pairwise_cons.mp h with ⟨hr, hrs⟩
    unfold insertBid
    split
    · rename_i hlt
      exact List.pairwise_cons.mpr
        ⟨by
          intro y hy
          rcases List.mem_cons.mp hy with rfl | hy
          · exact le_of_lt hlt
          · exact le_trans (hr y hy) (le_of_lt hlt),
         h⟩
    · rename_i hge
      exact List.pairwise_cons.mpr
        ⟨by
          intro y hy
          rcases mem_insertBid hy with rfl | hy
          · exact not_lt.mp hge
          · exact hr y hy,
         insertBid_sorted o hrs⟩

/-- Inserting an ask keeps the ask side ordered best-price-first. -/
theorem insertAsk_sorted (o : Order) :
    ∀ {l}, asksOrdered l → asksOrdered (insertAsk o l)
  | [], _ => by simp [insertAsk, asksOrdered]
  | r :: rs, h => by
    rcases List.pairwise_cons.mp h with ⟨hr, hrs⟩
    unfold insertAsk
    split
    · rename_i hlt
      exact List.pairwise_cons.mpr
        ⟨by
          intro y hy
          rcases List.mem_cons.mp hy with rfl | hy
          · exact le_of_lt hlt
          · exact le_trans (le_of_lt hlt) (hr y hy),
         h⟩
    · rename_i hge
      exact List.pairwise_cons.mpr
        ⟨by
          intro y hy
          rcases mem_insertAsk hy with rfl | hy
          · exact not_lt.mp hge
          · exact hr y hy,
         insertAsk_sorted o hrs⟩

/-- The matching walk only removes leading opposing orders and possibly
reduces the first remaining one. -/
theorem matchLoop_reducedSuffix (o : Order) :
    ∀ (l : List Order) (qty : ℤ), reducedSuffix l (matchLoop o qty l).2.1
  | [], qty => Or.inl ⟨0, rfl⟩
  | r :: rs, qty => by
    unfold matchLoop
    split_ifs with h1 h2 h3
    · exact Or.inl ⟨0, rfl⟩
    · rcases matchLoop_reducedSuffix o rs (qty - r.quantity) with ⟨n, hn⟩ | ⟨n, r2, rs2, q, hd, hl⟩
      · exact Or.inl ⟨n + 1, by simpa using hn⟩
      · exact Or.inr ⟨n + 1, r2, rs2, q, by simpa using hd, hl⟩
    · exact Or.inr ⟨0, r, rs, r.quantity - qty, rfl, rfl⟩
    · exact Or.inl ⟨0, rfl⟩

/-- A reduced suffix of a pairwise-ordered list is pairwise-ordered, for any
relation that only looks at prices. -/
theorem reducedSuffix_pairwise {R : Order → Order → Prop}
    (hR : ∀ (a : Order) (q : ℤ) (b : Order), R a b → R { a with quantity := q } b)
    {l l2 : List Order} (hp : l.Pairwise R) (hs : reducedSuffix l l2) :
    l2.Pairwise R := by
  rcases hs with ⟨n, rfl⟩ | ⟨n, r, rs, q, hd, rfl⟩
  · exact hp.sublist (List.drop_sublist n l)
  · have h2 : (r :: rs).Pairwise R := hd ▸ hp.sublist (List.drop_sublist n l)
    rcases List.pairwise_cons.mp h2 with ⟨hr, hrs⟩
    exact List.pairwise_cons.mpr ⟨fun y hy => hR r q y (hr y hy), hrs⟩

/-- Every order in a reduced suffix descends from an order of the original
list: same identity, price and side, only the quantity may differ. -/
theorem reducedSuffix_mem {l l2 : List Order} (hs : reducedSuffix l l2) :
    ∀ x ∈ l2, ∃ y ∈ l, x.id = y.id ∧ x.price = y.price ∧
      x.agent_id = y.agent_id ∧ x.side = y.side ∧ x.time = y.time ∧
      x.is_market = y.is_market := by
  rcases hs with ⟨n, rfl⟩ | ⟨n, r, rs, q, hd, rfl⟩
  · intro x hx
    exact ⟨x, List.mem_of_mem_drop hx, rfl, rfl, rfl, rfl, rfl, rfl⟩
  · intro x hx
    rcases List.mem_cons.mp hx with rfl | hx
    · refine ⟨r, ?_, rfl, rfl, rfl, rfl, rfl, rfl⟩
      exact List.mem_of_mem_drop (hd ▸ List.mem_cons_self r rs)
    · refine ⟨x, ?_, rfl, rfl, rfl, rfl, rfl, rfl⟩
      exact List.mem_of_mem_drop (hd ▸ List.mem_cons_of_mem r hx)

/-- When the walk stops with unfilled quantity and a nonempty opposing side,
the first remaining opposing order does not cross the incoming order. -/
theorem matchLoop_stop (o : Order) :
    ∀ (l : List Order) (qty : ℤ) (r : Order) (rs2 : List Order),
      (matchLoop o qty l).2.1 = r :: rs2 → 0 < (matchLoop o qty l).2.2 →
      crosses o r = false
  | [], qty, r, rs2 => by intro h; simp [matchLoop] at h
  | r0 :: rs, qty, r, rs2 => by
    intro hl hq
    unfold matchLoop at hl hq
    split_ifs at hl hq with h1 h2 h3
    · simp at hq
      omega
    · exact matchLoop_stop o rs (qty - r0.quantity) r rs2 (by simpa using hl)
        (by simpa using hq)
    · simp at hq
    · cases hl
      simpa using h2

/-- Equal price fields give equal resting prices. -/
theorem price_eq_limPrice {x y : Order} (h : x.price = y.price) :
    limPrice x = limPrice y := by
  unfold limPrice
  rw [h]

/-- The book produced by `process_order` for an incoming BUY. -/
theorem processOrder_buy (bk : OrderBook) (o : Order) (hside : o.side = "BUY") :
    (bk.processOrder o).2 =
      ⟨if o.is_market || decide ((matchLoop o o.quantity bk.asks).2.2 ≤ 0) then bk.bids
        else insertBid { o with quantity := (matchLoop o o.quantity bk.asks).2.2 } bk.bids,
       (matchLoop o o.quantity bk.asks).2.1,
       bk.trades ++ (matchLoop o o.quantity bk.asks).1⟩ := by
  unfold OrderBook.processOrder
  rw [if_pos hside]

/-- The book produced by `process_order` for an incoming non-BUY (SELL). -/
theorem processOrder_sell (bk : OrderBook) (o : Order) (hside : ¬ o.side = "BUY") :
    (bk.processOrder o).2 =
      ⟨(matchLoop o o.quantity bk.bids).2.1,
       if o.is_market || decide ((matchLoop o o.quantity bk.bids).2.2 ≤ 0) then bk.asks
        else insertAsk { o with quantity := (matchLoop o o.quantity bk.bids).2.2 } bk.asks,
       bk.trades ++ (matchLoop o o.quantity bk.bids).1⟩ := by
  unfold OrderBook.processOrder
  rw [if_neg hside]

/-- The trades returned by `process_order` are those of the matching walk
against the opposing side. -/
theorem processOrder_trades (bk : OrderBook) (o : Order) :
    (bk.processOrder o).1 = (matchLoop o o.quantity (oppSide bk o)).1 := by
  unfold OrderBook.processOrder oppSide
  by_cases hside : o.side = "BUY" <;> simp [hside]

/-- `process_order` preserves the book invariant. -/
theorem processOrder_inv (bk : OrderBook) (o : Order) (h : BookInv bk) :
    BookInv (bk.processOrder o).2 := by
  obtain ⟨hb, ha, hnc⟩ := h
  by_cases hside : o.side = "BUY"
  · rw [processOrder_buy bk o hside]
    have hs : reducedSuffix bk.asks (matchLoop o o.quantity bk.asks).2.1 :=
      matchLoop_reducedSuffix o bk.asks o.quantity
    have ha2 : asksOrdered (matchLoop o o.quantity bk.asks).2.1 :=
      reducedSuffix_pairwise
        (fun a q b hab => by simpa [limPrice_set_quantity] using hab) ha hs
    have hmem : ∀ x ∈ (matchLoop o o.quantity bk.asks).2.1,
        ∃ y ∈ bk.asks, limPrice x = limPrice y := by
      intro x hx
      obtain ⟨y, hy, _, hp, _⟩ := reducedSuffix_mem hs x hx
      exact ⟨y, hy, price_eq_limPrice hp⟩
    have hstop : o.is_market = false → 0 < (matchLoop o o.quantity bk.asks).2.2 →
        ∀ a ∈ (matchLoop o o.quantity bk.asks).2.1, limPrice o < limPrice a := by
      intro hm hq a haa
      cases hl : (matchLoop o o.quantity bk.asks).2.1 with
      | nil => rw [hl] at haa; simp at haa
      | cons rh rest =>
        have hcr : crosses o rh = false :=
          matchLoop_stop o bk.asks o.quantity rh rest hl hq
        have hlt : limPrice o < limPrice rh := by
          unfold crosses at hcr
          rw [if_pos hside, hm] at hcr
          simpa using hcr
        rw [hl] at haa
        rcases List.mem_cons.mp haa with rfl | haa
        · exact hlt
        · have := List.pairwise_cons.mp (hl ▸ ha2)
          exact lt_of_lt_of_le hlt (this.1 a haa)
    constructor
    · split_ifs with hins
      · exact hb
      · exact insertBid_sorted _ hb
    constructor
    · exact ha2
    · intro b hbm a ham
      split_ifs at hbm with hins
      · obtain ⟨y, hy, hxy⟩ := hmem a ham
        exact hxy ▸ hnc b hbm y hy
      · rcases mem_insertBid hbm with rfl | hbm
        · simp only [Bool.or_eq_true, decide_eq_true_eq, not_or] at hins
          have hm : o.is_market = false := by
            cases hmk : o.is_market
            · rfl
            · exact absurd hmk hins.1
          have hq : 0 < (matchLoop o o.quantity bk.asks).2.2 := by omega
          calc limPrice { o with quantity := (matchLoop o o.quantity bk.asks).2.2 }
              = limPrice o := limPrice_set_quantity o _
            _ < limPrice a := hstop hm hq a ham
        · obtain ⟨y, hy, hxy⟩ := hmem a ham
          exact hxy ▸ hnc b hbm y hy
  · rw [processOrder_sell bk o hside]
    have hs : reducedSuffix bk.bids (matchLoop o o.quantity bk.bids).2.1 :=
      matchLoop_reducedSuffix o bk.bids o.quantity
    have hb2 : bidsOrdered (matchLoop o o.quantity bk.bids).2.1 :=
      reducedSuffix_pairwise
        (fun a q b hab => by simpa [limPrice_set_quantity] using hab) hb hs
    have hmem : ∀ x ∈ (matchLoop o o.quantity bk.bids).2.1,
        ∃ y ∈ bk.bids, limPrice x = limPrice y := by
      intro x hx
      obtain ⟨y, hy, _, hp, _⟩ := reducedSuffix_mem hs x hx
      exact ⟨y, hy, price_eq_limPrice hp⟩
    have hstop : o.is_market = false → 0 < (matchLoop o o.quantity bk.bids).2.2 →
        ∀ b ∈ (matchLoop o o.quantity bk.bids).2.1, limPrice b < limPrice o := by
      intro hm hq b hbb
      cases hl : (matchLoop o o.quantity bk.bids).2.1 with
      | nil => rw [hl] at hbb; simp at hbb
      | cons rh rest =>
        have hcr : crosses o rh = false :=
          matchLoop_stop o bk.bids o.quantity rh rest hl hq
        have hlt : limPrice rh < limPrice o := by
          unfold crosses at hcr
          rw [if_neg hside, hm] at hcr
          simpa using hcr
        rw [hl] at hbb
        rcases List.mem_cons.mp hbb with rfl | hbb
        · exact hlt
        · have := List.pairwise_cons.mp (hl ▸ hb2)
          exact lt_of_le_of_lt (this.1 b hbb) hlt
    constructor
    · exact hb2
    constructor
    · split_ifs with hins
      · exact ha
      · exact insertAsk_sorted _ ha
    · intro b hbm a ham
      split_ifs at ham with hins
      · obtain ⟨y, hy, hxy⟩ := hmem b hbm
        exact hxy ▸ hnc y hy a ham
      · rcases mem_insertAsk ham with rfl | ham
        · simp only [Bool.or_eq_true, decide_eq_true_eq, not_or] at hins
          have hm : o.is_market = false := by
            cases hmk : o.is_market
            · rfl
            · exact absurd hmk hins.1
          have hq : 0 < (matchLoop o o.quantity bk.bids).2.2 := by omega
          calc limPrice b < limPrice o := hstop hm hq b hbm
            _ = limPrice { o with quantity := (matchLoop o o.quantity bk.bids).2.2 } :=
                (limPrice_set_quantity o _).symm
        · obtain ⟨y, hy, hxy⟩ := hmem b hbm
          exact hxy ▸ hnc y hy a ham

/-- `cancel_agent_orders` preserves the book invariant. -/
theorem cancel_inv (bk : OrderBook) (aid : ℤ) (h : BookInv bk) :
    BookInv (bk.cancelAgentOrders aid) := by
  obtain ⟨hb, ha, hnc⟩ := h
  refine ⟨List.Pairwise.sublist (List.filter_sublist _) hb,
    List.Pairwise.sublist (List.filter_sublist _) ha, ?_⟩
  intro b hbm a ham
  exact hnc b (List.mem_of_mem_filter hbm) a (List.mem_of_mem_filter ham)

/-- Each single book operation preserves the invariant. -/
theorem applyOp_inv (bk : OrderBook) (op : BookOp) (h : BookInv bk) :
    BookInv (applyOp bk op) := by
  cases op with
  | process o => exact processOrder_inv bk o h
  | cancel aid => exact cancel_inv bk aid h

/-- Any operation sequence preserves the invariant. -/
theorem applyOps_inv : ∀ (ops : List BookOp) (bk : OrderBook), BookInv bk →
    BookInv (applyOps bk ops)
  | [], _, h => h
  | op :: ops, bk, h => applyOps_inv ops _ (applyOp_inv bk op h)

/-- C1: for every sequence of `process_order` and `cancel_agent_orders`
operations applied to a book starting empty, after each operation completes
every resting bid price is strictly below every resting ask price — the
book is never left crossed (and in particular best bid < best ask). -/
theorem never_crossed (ops : List BookOp) :
    ∀ b ∈ (applyOps OrderBook.empty ops).bids,
      ∀ a ∈ (applyOps OrderBook.empty ops).asks, limPrice b < limPrice a :=
  (applyOps_inv ops OrderBook.empty
    ⟨List.Pairwise.nil, List.Pairwise.nil, by simp [OrderBook.empty]⟩).2.2

/-- Witness for `never_crossed`: after submitting a resting ask at 105 and a
non-crossing bid at 100, the bid price is strictly below the ask price. -/
theorem never_crossed_witness :
    limPrice ⟨2, 1, 11, "BUY", some 100, 5, false⟩ <
      limPrice ⟨1, 0, 10, "SELL", some 105, 5, false⟩ :=
  never_crossed
    [BookOp.process ⟨1, 0, 10, "SELL", some 105, 5, false⟩,
     BookOp.process ⟨2, 1, 11, "BUY", some 100, 5, false⟩]
    ⟨2, 1, 11, "BUY", some 100, 5, false⟩ (by decide)
    ⟨1, 0, 10, "SELL", some 105, 5, false⟩ (by decide)

/-- Crossing only looks at the resting order's price. -/
theorem crosses_price_congr (o : Order) {r1 r2 : Order}
    (h : limPrice r1 = limPrice r2) : crosses o r1 = crosses o r2 := by
  unfold crosses
  rw [h]

/-- Indexed characterization of the matching walk: the `i`-th trade is paired
with the `i`-th opposing resting order (price, maker, quantity bound), and
every trade except possibly the last one consumes its resting order
completely — the earliest-arrived eligible order is always reduced to zero
before any quantity is taken from the next one. -/
theorem matchLoop_index (o : Order) :
    ∀ (l : List Order) (qty : ℤ) (i : ℕ) (tr : Trade),
      ((matchLoop o qty l).1)[i]? = some tr →
      ∃ r, l[i]? = some r ∧ tr.price = limPrice r ∧
        Trade.makerAgent o tr = r.agent_id ∧ tr.quantity ≤ r.quantity ∧
        (((matchLoop o qty l).1)[i+1]? ≠ none → tr.quantity = r.quantity)
  | [], qty, i, tr => by
    intro h
    simp [matchLoop] at h
  | r0 :: rs, qty, i, tr => by
    intro h
    unfold matchLoop at h ⊢
    split_ifs at h ⊢ with h1 h2 h3
    · simp at h
    · cases i with
      | zero =>
        simp only [List.getElem?_cons_zero, Option.some.injEq] at h
        subst h
        refine ⟨r0, by simp, (mkTrade_fields o r0 _).1, (mkTrade_fields o r0 _).2.2.2,
          le_of_eq (mkTrade_fields o r0 _).2.1, fun _ => (mkTrade_fields o r0 _).2.1⟩
      | succ n =>
        simp only [List.getElem?_cons_succ] at h ⊢
        exact matchLoop_index o rs (qty - r0.quantity) n tr h
    · cases i with
      | zero =>
        simp only [List.getElem?_cons_zero, Option.some.injEq] at h
        subst h
        refine ⟨r0, by simp, (mkTrade_fields o r0 _).1, (mkTrade_fields o r0 _).2.2.2,
          ?_, ?_⟩
        · rw [(mkTrade_fields o r0 _).2.1]
          omega
        · intro hnext
          simp at hnext
      | succ n =>
        simp at h
    · simp at h

/-- Ordered insertion places the new order exactly after the orders of
better or equal price: `insertAsk` splits the list at the first strictly
worse price. -/
theorem insertAsk_split (o : Order) :
    ∀ l, insertAsk o l =
      l.takeWhile (fun r => decide (limPrice r ≤ limPrice o)) ++
        o :: l.dropWhile (fun r => decide (limPrice r ≤ limPrice o))
  | [] => rfl
  | r :: rs => by
    unfold insertAsk
    split_ifs with h
    · rw [List.takeWhile_cons, List.dropWhile_cons]
      have : ¬ limPrice r ≤ limPrice o := not_le.mpr h
      simp [this]
    · have hle : limPrice r ≤ limPrice o := not_lt.mp h
      simp [hle, List.takeWhile_cons, List.dropWhile_cons, insertAsk_split o rs]

/-- Ordered insertion on the bid side splits at the first strictly lower
price. -/
theorem insertBid_split (o : Order) :
    ∀ l, insertBid o l =
      l.takeWhile (fun r => decide (limPrice o ≤ limPrice r)) ++
        o :: l.dropWhile (fun r => decide (limPrice o ≤ limPrice r))
  | [] => rfl
  | r :: rs => by
    unfold insertBid
    split_ifs with h
    · rw [List.takeWhile_cons, List.dropWhile_cons]
      have : ¬ limPrice o ≤ limPrice r := not_le.mpr h
      simp [this]
    · have hle : limPrice o ≤ limPrice r := not_lt.mp h
      simp [hle, List.takeWhile_cons, List.dropWhile_cons, insertBid_split o rs]

/-- C4: matching obeys price-time priority exhaustively.  (i) The `i`-th
trade of `process_order` pairs, in order, with the `i`-th resting order of
the opposing side as stored (price-time order), and each trade except
possibly the last consumes its resting order entirely — a partial fill
reduces the earliest-arrived eligible resting order to zero before any
quantity is taken from the next; (ii) trade prices are monotone in the
direction of price priority (better-priced resting orders fill first);
(iii) insertion places a new resting order after every resting order of
better or equal price, so same-price resting orders sit in arrival order;
(iv) in particular, when two same-priced resting orders are partially
spanned by a marketable incoming order, the earlier-arrived order fills
completely first and the later one absorbs only the remainder. -/
theorem price_time_priority (bk : OrderBook) (o : Order) (hinv : BookInv bk) :
    (∀ i tr, ((bk.processOrder o).1)[i]? = some tr →
      ∃ r, (oppSide bk o)[i]? = some r ∧ tr.price = limPrice r ∧
        Trade.makerAgent o tr = r.agent_id ∧ tr.quantity ≤ r.quantity ∧
        (((bk.processOrder o).1)[i+1]? ≠ none → tr.quantity = r.quantity)) ∧
    (∀ (i j : ℕ) (tri trj : Trade), i ≤ j → ((bk.processOrder o).1)[i]? = some tri →
      ((bk.processOrder o).1)[j]? = some trj →
      (o.side = "BUY" → tri.price ≤ trj.price) ∧
      (¬ o.side = "BUY" → trj.price ≤ tri.price)) ∧
    (∀ p l2, insertAsk p l2 =
      l2.takeWhile (fun r => decide (limPrice r ≤ limPrice p)) ++
        p :: l2.dropWhile (fun r => decide (limPrice r ≤ limPrice p))) ∧
    (∀ p l2, insertBid p l2 =
      l2.takeWhile (fun r => decide (limPrice p ≤ limPrice r)) ++
        p :: l2.dropWhile (fun r => decide (limPrice p ≤ limPrice r))) ∧
    (∀ a1 a2 rest, oppSide bk o = a1 :: a2 :: rest → limPrice a1 = limPrice a2 →
      crosses o a1 = true → 0 < a1.quantity → a1.quantity < o.quantity →
      o.quantity < a1.quantity + a2.quantity →
      (bk.processOrder o).1 =
        [mkTrade o a1 a1.quantity, mkTrade o a2 (o.quantity - a1.quantity)]) := by
  have hfifo : ∀ i tr, ((bk.processOrder o).1)[i]? = some tr →
      ∃ r, (oppSide bk o)[i]? = some r ∧ tr.price = limPrice r ∧
        Trade.makerAgent o tr = r.agent_id ∧ tr.quantity ≤ r.quantity ∧
        (((bk.processOrder o).1)[i+1]? ≠ none → tr.quantity = r.quantity) := by
    intro i tr h
    rw [processOrder_trades] at h ⊢
    exact matchLoop_index o (oppSide bk o) o.quantity i tr h
  refine ⟨hfifo, ?_, insertAsk_split, insertBid_split, ?_⟩
  · intro i j tri trj hij hi hj
    obtain ⟨ri, hri, hpi, _, _, _⟩ := hfifo i tri hi
    obtain ⟨rj, hrj, hpj, _, _, _⟩ := hfifo j trj hj
    rcases eq_or_lt_of_le hij with rfl | hlt
    · rw [hri] at hrj
      injection hrj with hrr
      subst hrr
      constructor <;> intro _ <;> exact le_of_eq (by rw [hpi, hpj])
    · constructor
      · intro hside
        have hao : oppSide bk o = bk.asks := by
          unfold oppSide
          rw [if_pos hside]
        rw [hao] at hri hrj
        obtain ⟨hilen, hieq⟩ := List.getElem?_eq_some.mp hri
        obtain ⟨hjlen, hjeq⟩ := List.getElem?_eq_some.mp hrj
        have hord := (List.pairwise_iff_getElem.mp hinv.2.1) i j hilen hjlen hlt
        rw [hieq, hjeq] at hord
        rw [hpi, hpj]
        exact hord
      · intro hside
        have hao : oppSide bk o = bk.bids := by
          unfold oppSide
          rw [if_neg hside]
        rw [hao] at hri hrj
        obtain ⟨hilen, hieq⟩ := List.getElem?_eq_some.mp hri
        obtain ⟨hjlen, hjeq⟩ := List.getElem?_eq_some.mp hrj
        have hord := (List.pairwise_iff_getElem.mp hinv.1) i j hilen hjlen hlt
        rw [hieq, hjeq] at hord
        rw [hpi, hpj]
        exact hord
  · intro a1 a2 rest hopp h12 hcr hq1 hq2 hq3
    have hcr2 : crosses o a2 = true := (crosses_price_congr o h12) ▸ hcr
    rw [processOrder_trades, hopp]
    have c1 : ¬ o.quantity ≤ 0 := by omega
    have c2 : a1.quantity ≤ o.quantity := le_of_lt hq2
    have c3 : ¬ o.quantity - a1.quantity ≤ 0 := by omega
    have c4 : ¬ a2.quantity ≤ o.quantity - a1.quantity := by omega
    simp [matchLoop, c1, hcr, c2, c3, hcr2, c4]

/-- Witness for `price_time_priority`: two same-priced resting asks (arrival
ids 1 then 2) partially spanned by a BUY market order of quantity 7 fill in
strict arrival order — the first completely (5), the second with the
remainder (2). -/
theorem price_time_priority_witness :
    ((OrderBook.mk []
        [⟨1, 0, 10, "SELL", some 101, 5, false⟩, ⟨2, 0, 11, "SELL", some 101, 5, false⟩]
        []).processOrder ⟨3, 1, 12, "BUY", none, 7, true⟩).1 =
      [mkTrade ⟨3, 1, 12, "BUY", none, 7, true⟩ ⟨1, 0, 10, "SELL", some 101, 5, false⟩ 5,
       mkTrade ⟨3, 1, 12, "BUY", none, 7, true⟩ ⟨2, 0, 11, "SELL", some 101, 5, false⟩ 2] :=
  (price_time_priority
      (OrderBook.mk []
        [⟨1, 0, 10, "SELL", some 101, 5, false⟩, ⟨2, 0, 11, "SELL", some 101, 5, false⟩]
        [])
      ⟨3, 1, 12, "BUY", none, 7, true⟩
      ⟨List.Pairwise.nil, by simp [asksOrdered, limPrice], by simp⟩).2.2.2.2
    ⟨1, 0, 10, "SELL", some 101, 5, false⟩ ⟨2, 0, 11, "SELL", some 101, 5, false⟩ []
    (by decide) (by decide) (by decide) (by decide) (by decide) (by decide)

/-- The matching walk fills exactly the quantity it consumes: traded
quantity plus unfilled remainder equals the incoming quantity. -/
theorem matchLoop_qty (o : Order) :
    ∀ (l : List Order) (qty : ℤ),
      tradesQty (matchLoop o qty l).1 + (matchLoop o qty l).2.2 = qty
  | [], qty => by simp [matchLoop, tradesQty]
  | r :: rs, qty => by
    unfold matchLoop
    split_ifs with h1 h2 h3
    · simp [tradesQty]
    · have ih := matchLoop_qty o rs (qty - r.quantity)
      simp only [tradesQty, List.map_cons, List.sum_cons] at ih ⊢
      rw [(mkTrade_fields o r _).2.1]
      omega
    · simp [tradesQty, (mkTrade_fields o r _).2.1]
    · simp [tradesQty]

/-- The unfilled remainder never becomes negative. -/
theorem matchLoop_rem_nonneg (o : Order) :
    ∀ (l : List Order) (qty : ℤ), 0 ≤ qty → 0 ≤ (matchLoop o qty l).2.2
  | [], qty, h => h
  | r :: rs, qty, h => by
    unfold matchLoop
    split_ifs with h1 h2 h3
    · simpa using h
    · simpa using matchLoop_rem_nonneg o rs (qty - r.quantity) (by omega)
    · simp
    · simpa using h

/-- With non-negative resting quantities, the walk never fills more than the
liquidity available on the opposing side. -/
theorem matchLoop_le_rest (o : Order) :
    ∀ (l : List Order) (qty : ℤ), (∀ r ∈ l, 0 ≤ r.quantity) →
      tradesQty (matchLoop o qty l).1 ≤ restQty l
  | [], qty, h => by simp [matchLoop, tradesQty, restQty]
  | r :: rs, qty, h => by
    have hr : 0 ≤ r.quantity := h r (by simp)
    have hrs : ∀ x ∈ rs, 0 ≤ x.quantity := fun x hx => h x (by simp [hx])
    have hsum : 0 ≤ restQty rs := by
      unfold restQty
      exact List.sum_nonneg (by
        intro q hq
        obtain ⟨x, hx, rfl⟩ := List.mem_map.mp hq
        exact hrs x hx)
    unfold matchLoop
    split_ifs with h1 h2 h3
    · simp only [tradesQty, restQty, List.map_nil, List.sum_nil, List.map_cons,
        List.sum_cons]
      unfold restQty at hsum
      omega
    · have ih := matchLoop_le_rest o rs (qty - r.quantity) hrs
      simp only [tradesQty, restQty, List.map_cons, List.sum_cons] at ih ⊢
      rw [(mkTrade_fields o r _).2.1]
      omega
    · simp only [tradesQty, restQty, List.map_cons, List.sum_cons, List.map_nil,
        List.sum_nil]
      rw [(mkTrade_fields o r _).2.1]
      unfold restQty at hsum
      omega
    · simp only [tradesQty, restQty, List.map_nil, List.sum_nil, List.map_cons,
        List.sum_cons]
      unfold restQty at hsum
      omega

/-- C6: every trade produced by `process_order` executes at the resting
(maker) order's quoted price, never at the incoming order's price; in
particular, on an empty book a SELL limit of quantity 5 at 101 produces no
trade and rests as a single ask of quantity 5, and a following BUY market
order of quantity 3 produces exactly one trade at price 101 for quantity 3,
leaving the resting ask with quantity 2. -/
theorem trades_at_maker_price :
    (∀ (bk : OrderBook) (o : Order) (tr : Trade), tr ∈ (bk.processOrder o).1 →
      ∃ r ∈ oppSide bk o, tr.price = limPrice r ∧
        Trade.makerAgent o tr = r.agent_id) ∧
    (OrderBook.empty.processOrder ⟨1, 0, 10, "SELL", some 101, 5, false⟩ =
      ([], ⟨[], [⟨1, 0, 10, "SELL", some 101, 5, false⟩], []⟩)) ∧
    ((OrderBook.empty.processOrder ⟨1, 0, 10, "SELL", some 101, 5, false⟩).2.processOrder
        ⟨2, 1, 11, "BUY", none, 3, true⟩ =
      ([⟨1, 101, 3, 11, 10⟩],
       ⟨[], [⟨1, 0, 10, "SELL", some 101, 2, false⟩], [⟨1, 101, 3, 11, 10⟩]⟩)) := by
  refine ⟨?_, by decide, by decide⟩
  intro bk o tr htr
  obtain ⟨i, hi⟩ := List.mem_iff_getElem?.mp htr
  rw [processOrder_trades] at hi
  obtain ⟨r, hr, hp, hm, _⟩ := matchLoop_index o (oppSide bk o) o.quantity i tr hi
  obtain ⟨hlen, hgeq⟩ := List.getElem?_eq_some.mp hr
  exact ⟨r, hgeq ▸ List.getElem_mem hlen, hp, hm⟩

/-- Witness for `trades_at_maker_price`: the trade of the scenario executes
at the resting ask's price 101, applied through the theorem at the concrete
book and order. -/
theorem trades_at_maker_price_witness :
    ∃ r ∈ oppSide
        ⟨[], [⟨1, 0, 10, "SELL", some 101, 5, false⟩], []⟩
        ⟨2, 1, 11, "BUY", none, 3, true⟩,
      (Trade.mk 1 101 3 11 10).price = limPrice r ∧
        Trade.makerAgent ⟨2, 1, 11, "BUY", none, 3, true⟩ ⟨1, 101, 3, 11, 10⟩ = r.agent_id :=
  trades_at_maker_price.1
    ⟨[], [⟨1, 0, 10, "SELL", some 101, 5, false⟩], []⟩
    ⟨2, 1, 11, "BUY", none, 3, true⟩
    ⟨1, 101, 3, 11, 10⟩ (by decide)

/-- C7: a market order fills only the quantity immediately available on the
opposing side, never rests (its own side is untouched and every order
resting afterwards descends from one resting before), and insufficient or
absent opposing liquidity is not an error: against an empty opposite side
the result is an empty trade list and an unchanged book. -/
theorem market_order_no_rest (bk : OrderBook) (o : Order) (hm : o.is_market = true)
    (hq : 0 ≤ o.quantity) (hrest : ∀ r ∈ bk.bids ++ bk.asks, 0 ≤ r.quantity) :
    ((o.side = "BUY" → (bk.processOrder o).2.bids = bk.bids) ∧
     (¬ o.side = "BUY" → (bk.processOrder o).2.asks = bk.asks)) ∧
    (∀ x ∈ (bk.processOrder o).2.bids ++ (bk.processOrder o).2.asks,
      ∃ y ∈ bk.bids ++ bk.asks, x.id = y.id ∧ x.price = y.price ∧
        x.agent_id = y.agent_id ∧ x.side = y.side) ∧
    tradesQty (bk.processOrder o).1 ≤ o.quantity ∧
    tradesQty (bk.processOrder o).1 ≤ restQty (oppSide bk o) ∧
    (oppSide bk o = [] → (bk.processOrder o).1 = [] ∧ (bk.processOrder o).2 = bk) := by
  have hsum : tradesQty (bk.processOrder o).1 ≤ o.quantity := by
    rw [processOrder_trades]
    have h1 := matchLoop_qty o (oppSide bk o) o.quantity
    have h2 := matchLoop_rem_nonneg o (oppSide bk o) o.quantity hq
    omega
  have hle : tradesQty (bk.processOrder o).1 ≤ restQty (oppSide bk o) := by
    rw [processOrder_trades]
    refine matchLoop_le_rest o (oppSide bk o) o.quantity ?_
    intro r hr
    unfold oppSide at hr
    split_ifs at hr
    · exact hrest r (List.mem_append.mpr (Or.inr hr))
    · exact hrest r (List.mem_append.mpr (Or.inl hr))
  refine ⟨⟨?_, ?_⟩, ?_, hsum, hle, ?_⟩
  · intro hside
    rw [processOrder_buy bk o hside]
    simp [hm]
  · intro hside
    rw [processOrder_sell bk o hside]
    simp [hm]
  · intro x hx
    by_cases hside : o.side = "BUY"
    · rw [processOrder_buy bk o hside] at hx
      simp only [hm, Bool.true_or, if_true, List.mem_append] at hx
      rcases hx with hx | hx
      · exact ⟨x, List.mem_append.mpr (Or.inl hx), rfl, rfl, rfl, rfl⟩
      · obtain ⟨y, hy, h1, h2, h3, h4, _⟩ :=
          reducedSuffix_mem (matchLoop_reducedSuffix o bk.asks o.quantity) x hx
        exact ⟨y, List.mem_append.mpr (Or.inr hy), h1, h2, h3, h4⟩
    · rw [processOrder_sell bk o hside] at hx
      simp only [hm, Bool.true_or, if_true, List.mem_append] at hx
      rcases hx with hx | hx
      · obtain ⟨y, hy, h1, h2, h3, h4, _⟩ :=
          reducedSuffix_mem (matchLoop_reducedSuffix o bk.bids o.quantity) x hx
        exact ⟨y, List.mem_append.mpr (Or.inl hy), h1, h2, h3, h4⟩
      · exact ⟨x, List.mem_append.mpr (Or.inr hx), rfl, rfl, rfl, rfl⟩
  · intro hempty
    by_cases hside : o.side = "BUY"
    · have hasks : bk.asks = [] := by
        unfold oppSide at hempty
        rw [if_pos hside] at hempty
        exact hempty
      constructor
      · rw [processOrder_trades, hempty]
        simp [matchLoop]
      · rw [processOrder_buy bk o hside, hasks]
        simp only [matchLoop, hm, Bool.true_or, if_true, List.append_nil]
        rw [← hasks]
    · have hbids : bk.bids = [] := by
        unfold oppSide at hempty
        rw [if_neg hside] at hempty
        exact hempty
      constructor
      · rw [processOrder_trades, hempty]
        simp [matchLoop]
      · rw [processOrder_sell bk o hside, hbids]
        simp only [matchLoop, hm, Bool.true_or, if_true, List.append_nil]
        rw [← hbids]

/-- Witness for `market_order_no_rest`: a BUY market order of quantity 3
against an empty book produces no trades and leaves the book unchanged. -/
theorem market_order_no_rest_witness :
    (OrderBook.empty.processOrder ⟨1, 0, 11, "BUY", none, 3, true⟩).1 = [] ∧
    (OrderBook.empty.processOrder ⟨1, 0, 11, "BUY", none, 3, true⟩).2 = OrderBook.empty :=
  (market_order_no_rest OrderBook.empty ⟨1, 0, 11, "BUY", none, 3, true⟩
    (by decide) (by decide) (by decide)).2.2.2.2 (by decide)

/-- C2: the simulation is deterministic in its configuration — two runs of
`run_simulation` built from identical configurations (including the seed,
from which every random stream is derived via `seedValue`) produce identical
fundamental-value series, identical mid-price series and identical trade
logs, for any external PRNG implementation and any agent policies. -/
theorem run_simulation_deterministic (m : RngModel) (pol : Policy)
    (c1 c2 : SimulationConfig) (h : c1 = c2) :
    (runSimulation m pol c1).map
        (fun r => (r.fundamental_values, r.mid_prices, r.trades)) =
      (runSimulation m pol c2).map
        (fun r => (r.fundamental_values, r.mid_prices, r.trades)) := by
  rw [h]

/-- Witness for `run_simulation_deterministic`: two runs with the test
configuration shape (T = 2, one seed) agree on all three outputs. -/
theorem run_simulation_deterministic_witness :
    (runSimulation zeroRng nullPolicy
        ⟨1, 2, false, none, 0, 0, 1/50, 0, 0, 0, [], some 1234⟩).map
        (fun r => (r.fundamental_values, r.mid_prices, r.trades)) =
      (runSimulation zeroRng nullPolicy
        ⟨1, 2, false, none, 0, 0, 1/50, 0, 0, 0, [], some 1234⟩).map
        (fun r => (r.fundamental_values, r.mid_prices, r.trades)) :=
  run_simulation_deterministic zeroRng nullPolicy _ _ rfl

/-- Per-tick shape of the loop body: a successful tick appends exactly the
updated fundamental value to the recorded series, appends exactly one mid
price, and carries the updated value and Gaussian stream forward. -/
theorem simTick_ok (m : RngModel) (pol : Policy) (cfg : SimulationConfig)
    (st st2 : SimState) (t : ℕ) (h : simTick m pol cfg st t = .ok st2) :
    st2.fvals = st.fvals ++ [(fundUpdate m cfg t st.v st.nprng).1] ∧
    st2.mids.length = st.mids.length + 1 ∧
    st2.v = (fundUpdate m cfg t st.v st.nprng).1 ∧
    st2.nprng = (fundUpdate m cfg t st.v st.nprng).2 := by
  simp only [simTick] at h
  split at h
  · exact Except.noConfusion h
  · injection h with h2
    subst h2
    simp

/-- A successful tick-loop run over any tick list grows both recorded series
by exactly one entry per tick and only ever appends to the fundamental
series. -/
theorem foldlM_simTick_ok (m : RngModel) (pol : Policy) (cfg : SimulationConfig) :
    ∀ (ts : List ℕ) (st stF : SimState),
      ts.foldlM (simTick m pol cfg) st = .ok stF →
      stF.fvals.length = st.fvals.length + ts.length ∧
      stF.mids.length = st.mids.length + ts.length ∧
      ∃ suffix, stF.fvals = st.fvals ++ suffix
  | [], st, stF, h => by
    simp only [List.foldlM_nil] at h
    injection h with h2
    subst h2
    exact ⟨rfl, rfl, [], by simp⟩
  | t :: ts, st, stF, h => by
    rw [List.foldlM_cons] at h
    cases hst : simTick m pol cfg st t with
    | error e =>
      rw [hst] at h
      exact Except.noConfusion h
    | ok st1 =>
      rw [hst] at h
      obtain ⟨l1, l2, suf, hsuf⟩ := foldlM_simTick_ok m pol cfg ts st1 stF h
      obtain ⟨hfv, hml, _, _⟩ := simTick_ok m pol cfg st st1 t hst
      refine ⟨?_, ?_, ?_⟩
      · rw [l1, hfv]
        simp [List.length_append]
        omega
      · rw [l2, hml]
        simp
        omega
      · exact ⟨(fundUpdate m cfg t st.v st.nprng).1 :: suf, by
          rw [hsuf, hfv]
          simp⟩

/-- C8: the two fundamental-value update sources are mutually exclusive per
tick.  On the configured event tick, when the scheduled event is enabled
(`has_event`, an event time present, a nonzero direction), the value
receives exactly the multiplicative jump `v * (1 + jump_direction *
|jump_size|)` and the Gaussian stream is not consumed; on every other tick
it receives exactly one Gaussian draw with the configured volatility and the
stream advances by exactly one position; and each successful tick of the
simulation loop records exactly this update. -/
theorem fundamental_update_exclusive (m : RngModel) (cfg : SimulationConfig)
    (t : ℕ) (v : ℚ) (g : NpRng) :
    (eventEnabled cfg → cfg.event_time = some (t : ℤ) →
      fundUpdate m cfg t v g =
        (v * (1 + (cfg.jump_direction : ℚ) * |cfg.jump_size|), g)) ∧
    (¬ (eventEnabled cfg ∧ cfg.event_time = some (t : ℤ)) →
      fundUpdate m cfg t v g =
        (v + m.npNormal g.seed g.idx cfg.volatility, ⟨g.seed, g.idx + 1⟩)) ∧
    (∀ (pol : Policy) (st st2 : SimState), st.v = v → st.nprng = g →
      simTick m pol cfg st t = .ok st2 →
      st2.fvals = st.fvals ++ [(fundUpdate m cfg t v g).1] ∧
        st2.nprng = (fundUpdate m cfg t v g).2) := by
  refine ⟨?_, ?_, ?_⟩
  · intro he het
    unfold fundUpdate
    rw [if_pos ⟨he.1, het, he.2.2⟩]
  · intro hne
    unfold fundUpdate
    rw [if_neg]
    intro ⟨h1, h2, h3⟩
    exact hne ⟨⟨h1, by rw [h2]; simp, h3⟩, h2⟩
  · intro pol st st2 hv hg h
    obtain ⟨h1, _, _, h4⟩ := simTick_ok m pol cfg st st2 t h
    rw [hv, hg] at h1 h4
    exact ⟨h1, h4⟩

/-- Witness for `fundamental_update_exclusive`: with an enabled event at
tick 5 the update at tick 5 is the pure jump with the stream untouched, and
at tick 4 it is one Gaussian draw advancing the stream. -/
theorem fundamental_update_exclusive_witness :
    fundUpdate zeroRng ⟨1, 10, true, some 5, 1/10, 1, 1/20, 0, 0, 0, [], some 3⟩
        5 100 ⟨3, 0⟩ =
      (100 * (1 + ((1 : ℤ) : ℚ) * |(1/10 : ℚ)|), ⟨3, 0⟩) ∧
    fundUpdate zeroRng ⟨1, 10, true, some 5, 1/10, 1, 1/20, 0, 0, 0, [], some 3⟩
        4 100 ⟨3, 0⟩ =
      (100 + zeroRng.npNormal 3 0 (1/20), ⟨3, 1⟩) :=
  ⟨(fundamental_update_exclusive zeroRng _ 5 100 ⟨3, 0⟩).1
      (by unfold eventEnabled; exact ⟨rfl, by decide, by decide⟩) (by decide),
   (fundamental_update_exclusive zeroRng _ 4 100 ⟨3, 0⟩).2.1 (by
      intro hc
      exact absurd hc.2 (by decide))⟩

/-- C10 (amended): both recorded series have length exactly `config.T`, and
the tick-0 fundamental update (Gaussian increment, or jump when the event
tick is 0) is applied to the starting constant 100.0 before the first value
is recorded — the first recorded value is the tick-0 update of 100. -/
theorem run_series_lengths (m : RngModel) (pol : Policy) (cfg : SimulationConfig)
    (res : SimulationResult) (h : runSimulation m pol cfg = .ok res) :
    res.fundamental_values.length = cfg.T ∧ res.mid_prices.length = cfg.T ∧
    (0 < cfg.T → res.fundamental_values.head? =
      some (fundUpdate m cfg 0 100 ⟨seedValue cfg, 0⟩).1) := by
  unfold runSimulation at h
  split at h
  · exact Except.noConfusion h
  · rename_i bs hbs
    split at h
    · exact Except.noConfusion h
    · rename_i stF hfold
      injection h with h2
      subst h2
      obtain ⟨l1, l2, suf, hsuf⟩ := foldlM_simTick_ok m pol cfg _ _ _ hfold
      refine ⟨by simpa using l1, by simpa using l2, ?_⟩
      intro hT
      obtain ⟨n, hn⟩ : ∃ n, cfg.T = n + 1 := ⟨cfg.T - 1, by omega⟩
      rw [hn, List.range_succ_eq_map, List.foldlM_cons] at hfold
      cases hst : simTick m pol cfg
          ⟨OrderBook.empty, bs.agents, ⟨seedValue cfg, 0⟩, 100, 1, [], []⟩ 0 with
      | error e =>
        rw [hst] at hfold
        exact Except.noConfusion hfold
      | ok st1 =>
        rw [hst] at hfold
        obtain ⟨_, _, suf2, hsuf2⟩ := foldlM_simTick_ok m pol cfg _ _ _ hfold
        obtain ⟨hfv, _, _, _⟩ := simTick_ok m pol cfg _ _ _ hst
        simp only [hsuf2, hfv]
        simp

/-- Witness for `run_series_lengths`: a concrete one-tick run produces
series of length 1 whose first value is the tick-0 update of 100. -/
theorem run_series_lengths_witness :
    (SimulationResult.mk [100 * (1 + ((1 : ℤ) : ℚ) * |(0 : ℚ)|)]
        [100 * (1 + ((1 : ℤ) : ℚ) * |(0 : ℚ)|)] [] []
        ⟨[], [], []⟩).fundamental_values.length = 1 ∧
    (SimulationResult.mk [100 * (1 + ((1 : ℤ) : ℚ) * |(0 : ℚ)|)]
        [100 * (1 + ((1 : ℤ) : ℚ) * |(0 : ℚ)|)] [] []
        ⟨[], [], []⟩).mid_prices.length = 1 ∧
    (0 < 1 → (SimulationResult.mk [100 * (1 + ((1 : ℤ) : ℚ) * |(0 : ℚ)|)]
        [100 * (1 + ((1 : ℤ) : ℚ) * |(0 : ℚ)|)] [] []
        ⟨[], [], []⟩).fundamental_values.head? =
      some (fundUpdate zeroRng ⟨1, 1, true, some 0, 0, 1, 1/50, 0, 0, 0, [], some 7⟩
        0 100 ⟨seedValue ⟨1, 1, true, some 0, 0, 1, 1/50, 0, 0, 0, [], some 7⟩, 0⟩).1) :=
  run_series_lengths zeroRng nullPolicy
    ⟨1, 1, true, some 0, 0, 1, 1/50, 0, 0, 0, [], some 7⟩
    (SimulationResult.mk [100 * (1 + ((1 : ℤ) : ℚ) * |(0 : ℚ)|)]
      [100 * (1 + ((1 : ℤ) : ℚ) * |(0 : ℚ)|)] [] [] ⟨[], [], []⟩) (by rfl)

/-- Counterexample to C10 as stated: with `T = 1`, an enabled event at tick
0 and `jump_size = 0`, the run succeeds and the recorded fundamental series
is exactly `[100]` — so the bare constant 100.0 does appear as an element
of the returned fundamental-value series. -/
theorem fundamental_100_counterexample :
    (runSimulation zeroRng nullPolicy
        ⟨1, 1, true, some 0, 0, 1, 1/50, 0, 0, 0, [], some 7⟩).map
        (fun r => (r.fundamental_values, r.mid_prices)) =
      .ok ([100], [100]) ∧ (100 : ℚ) ∈ [(100 : ℚ)] := by
  have hrun : runSimulation zeroRng nullPolicy
      ⟨1, 1, true, some 0, 0, 1, 1/50, 0, 0, 0, [], some 7⟩ =
      .ok ⟨[100 * (1 + ((1 : ℤ) : ℚ) * |(0 : ℚ)|)],
           [100 * (1 + ((1 : ℤ) : ℚ) * |(0 : ℚ)|)], [], [], ⟨[], [], []⟩⟩ := rfl
  have hv : (100 : ℚ) * (1 + ((1 : ℤ) : ℚ) * |(0 : ℚ)|) = 100 := by norm_num
  rw [hrun]
  simp [hv, Except.map]

/-- C9 (amended): an unrecognized PropTrader trading mode raises a
validation error at agent construction, and an agent-building error aborts
`run_simulation` before any tick executes; an unrecognized insider strategy
label, however, is skipped silently during agent building — it produces no
agent and no error. -/
theorem invalid_agent_params_fail_fast :
    (∀ (agent_id : ℤ) (mode : String) (p_trade : ℚ) (max_qty : ℤ)
        (rng : PyRng) (nprng : NpRng),
      (∃ a, PropTrader.init agent_id mode p_trade max_qty rng nprng = .ok a) ↔
        (mode = "momentum" ∨ mode = "mean_reversion")) ∧
    (∀ (m : RngModel) (pol : Policy) (cfg : SimulationConfig) (e : String),
      buildAgents m cfg ⟨seedValue cfg, 0⟩ = .error e →
      runSimulation m pol cfg = .error e) ∧
    (∀ (m : RngModel) (cfg : SimulationConfig) (st : BuildState) (spec : InsiderSpec),
      ¬ (spec.strategy = "event" ∨ spec.strategy = "ring" ∨ spec.strategy = "slow" ∨
          spec.strategy = "stealth" ∨ spec.strategy = "pump") →
      buildInsider m cfg st spec = st) := by
  refine ⟨?_, ?_, ?_⟩
  · intro agent_id mode p_trade max_qty rng nprng
    unfold PropTrader.init
    split_ifs with hmode
    · simp [hmode]
    · simp only [not_not] at hmode
      simp [hmode]
  · intro m pol cfg e hb
    unfold runSimulation
    rw [hb]
  · intro m cfg st spec h
    unfold buildInsider
    rw [if_neg (by tauto), if_neg (by tauto)]

/-- Witness for `invalid_agent_params_fail_fast`: the recognized mode
"momentum" constructs successfully, and the unrecognized strategy label
"bogus" is skipped without touching the build state. -/
theorem invalid_agent_params_fail_fast_witness :
    (∃ a, PropTrader.init 1 "momentum" (1/5) 5 ⟨0, 0⟩ ⟨0, 0⟩ = .ok a) ∧
    buildInsider zeroRng ⟨1, 1, true, some 0, 0, 1, 1/50, 0, 0, 0, [], some 7⟩
        ⟨[], ⟨7, 0⟩, 1⟩ ⟨"bogus", none, none, none⟩ = ⟨[], ⟨7, 0⟩, 1⟩ :=
  ⟨(invalid_agent_params_fail_fast.1 1 "momentum" (1/5) 5 ⟨0, 0⟩ ⟨0, 0⟩).mpr (Or.inl rfl),
   invalid_agent_params_fail_fast.2.2 zeroRng _ _ _ (by decide)⟩

/-- Counterexample to C9 as stated: a configuration whose only insider spec
carries the unrecognized strategy label "bogus" does not fail at setup — the
run completes its single tick successfully with no agents built. -/
theorem unknown_strategy_counterexample :
    (runSimulation zeroRng nullPolicy
        ⟨1, 1, true, some 0, 0, 1, 1/50, 0, 0, 0,
          [⟨"bogus", none, none, none⟩], some 7⟩).map
        (fun r => (r.fundamental_values.length, r.agents.length)) = .ok (1, 0) :=
  rfl
